import Mathlib

/-!
Verification development for the `daria_scraper` repository.

The HTML pages the scraper consumes are modelled as a tree of tags and text
nodes (mirroring the BeautifulSoup document tree), and each extraction routine
of the repository is translated into a Lean function over that model:

* `src/daria_scraper/scrapers/base.py`      — `extract_text`, `find_link_by_text`,
  `find_link_by_href`, `build_full_url`
* `src/daria_scraper/scrapers/character.py` — `find_character_link`,
  `get_character_id`, `CharacterScraper.scrape_alter_egos`
* `src/daria_scraper/scrapers/alter_ego.py` — `extract_image_data`,
  `extract_images_from_section`, `extract_images_by_character_name`,
  `extract_all_images`, `find_character_section`, `AlterEgoScraper.scrape_alter_egos`
* `src/daria_scraper/models/character.py`   — `Character`, `to_dict`, `from_dict`
* `src/daria_scraper/main.py`               — the three field-extraction
  strategies and the description extraction
* `src/daria_scraper/services/http.py`      — `build_url`, i.e. CPython's
  `urllib.parse.urljoin`, translated below at character-list level

Python strings are modelled as Lean `String`s; `str.lower`, `str.strip` and
`str.split` are re-implemented for the ASCII repertoire the site uses (the
Unicode-only differences of the Python originals are not exercised by any
claim).  The network is modelled by passing an `Option Node` fetch result.
-/

/-! ## Python string primitives (ASCII repertoire) -/

/-- Python `str.lower` on one ASCII character. -/
def pyLowerChar (c : Char) : Char :=
  if 'A' ≤ c && c ≤ 'Z' then Char.ofNat (c.toNat + 32) else c

/-- Python `str.lower` (ASCII repertoire). -/
def pyLower (s : String) : String := ⟨s.data.map pyLowerChar⟩

/-- The whitespace set of Python `str.strip()` / `str.split()`. -/
def isPySpace (c : Char) : Bool :=
  c == ' ' || c == '\t' || c == '\n' || c == '\r' || c == '\x0b' || c == '\x0c'

/-- Python `str.strip()` with no argument. -/
def pyStrip (s : String) : String :=
  ⟨((s.data.dropWhile isPySpace).reverse.dropWhile isPySpace).reverse⟩

/-- `pat.isPrefixOf s` on character lists, with decidable Bool result. -/
def isPrefixOfL (pat s : List Char) : Bool :=
  match pat, s with
  | [], _ => true
  | _ :: _, [] => false
  | a :: as, b :: bs => a == b && isPrefixOfL as bs

/-- Substring test on character lists: does `pat` occur inside `s`?
(Python's `pat in s`.) -/
def containsL (pat : List Char) : List Char → Bool
  | [] => pat.isEmpty
  | c :: rest => isPrefixOfL pat (c :: rest) || containsL pat rest

/-- Python `pat in s` (substring containment). -/
def strContains (s pat : String) : Bool := containsL pat.data s.data

/-- The suffix of `s` after the first occurrence of `pat`
(Python `s.split(pat, 1)[1]`; the scraper only evaluates it under a
`pat in s` guard, so the no-occurrence result is irrelevant). -/
def afterFirstL (pat : List Char) : List Char → List Char
  | [] => []
  | c :: rest =>
      if isPrefixOfL pat (c :: rest) then (c :: rest).drop pat.length
      else afterFirstL pat rest

/-- Python `s.split(pat, 1)[1]`. -/
def afterFirst (s pat : String) : String := ⟨afterFirstL pat.data s.data⟩

/-- Python `s.split()` (split on whitespace runs, discarding empties). -/
def pySplitWs (s : String) : List String :=
  ((s.data.foldr
      (fun c acc =>
        if isPySpace c then [] :: acc
        else
          match acc with
          | [] => [[c]]
          | w :: ws => (c :: w) :: ws)
      []).filter (fun w => w ≠ [])).map (fun w => (⟨w⟩ : String))

/-! ## `urllib.parse` — the URL resolution used by `Http.build_url`

A character-list-level translation of CPython's `urlsplit` / `urlparse` /
`urlunsplit` / `urlunparse` / `urljoin` (`Lib/urllib/parse.py`), restricted to
`allow_fragments=True` and without the control-character sanitisation recent
CPython performs on input (no input of interest contains control characters).
-/

/-- Split a character list at the first occurrence of `sep`; the separator is
kept in neither part. -/
def splitAtChar (sep : Char) : List Char → Option (List Char × List Char)
  | [] => none
  | c :: rest =>
      if c == sep then some ([], rest)
      else (splitAtChar sep rest).map (fun p => (c :: p.1, p.2))

/-- `scheme_chars` of `urllib.parse`. -/
def isSchemeChar (c : Char) : Bool :=
  ('a' ≤ c && c ≤ 'z') || ('A' ≤ c && c ≤ 'Z') || ('0' ≤ c && c ≤ '9') ||
    c == '+' || c == '-' || c == '.'

/-- ASCII letter test (`url[0].isascii() and url[0].isalpha()`). -/
def isAsciiAlpha (c : Char) : Bool := ('a' ≤ c && c ≤ 'z') || ('A' ≤ c && c ≤ 'Z')

/-- The scheme-splitting step of `urlsplit`: if the URL begins with a valid
scheme followed by `:`, return the lower-cased scheme and the remainder. -/
def splitSchemeL (u : List Char) : Option (List Char × List Char) :=
  match splitAtChar ':' u with
  | some (pre, rest) =>
      match pre with
      | [] => none
      | c :: _ =>
          if isAsciiAlpha c && pre.all isSchemeChar then some (pre.map pyLowerChar, rest)
          else none
  | none => none

/-- A character that ends the netloc portion of a URL. -/
def isNetlocEnd (c : Char) : Bool := c == '/' || c == '?' || c == '#'

/-- The five components produced by `urlsplit`, as character lists. -/
structure SplitUrl where
  scheme : List Char
  netloc : List Char
  path : List Char
  query : List Char
  frag : List Char
deriving Repr, DecidableEq

/-- The netloc-splitting step of `urlsplit`: when the remainder starts with
`//`, the netloc runs up to the next `/`, `?` or `#` (kept in the remainder). -/
def splitNetlocL (u : List Char) : List Char × List Char :=
  match u with
  | '/' :: '/' :: rest =>
      (rest.takeWhile (fun c => !isNetlocEnd c),
       rest.drop (rest.takeWhile (fun c => !isNetlocEnd c)).length)
  | _ => ([], u)

/-- The fragment-splitting step of `urlsplit` (split once at `#`). -/
def splitHashL (u : List Char) : List Char × List Char :=
  match splitAtChar '#' u with
  | some p => p
  | none => (u, [])

/-- The query-splitting step of `urlsplit` (split once at `?`). -/
def splitQueryL (u : List Char) : List Char × List Char :=
  match splitAtChar '?' u with
  | some p => p
  | none => (u, [])

/-- CPython `urlsplit(url, scheme=dscheme, allow_fragments=True)`. -/
def urlsplitL (u : List Char) (dscheme : List Char) : SplitUrl :=
  let sp :=
    match splitSchemeL u with
    | some p => p
    | none => (dscheme, u)
  let nl := splitNetlocL sp.2
  let fg := splitHashL nl.2
  let pq := splitQueryL fg.1
  ⟨sp.1, nl.1, pq.1, pq.2, fg.2⟩

/-- `uses_relative` of `urllib.parse`. -/
def usesRelative (scheme : List Char) : Bool :=
  (["", "ftp", "http", "gopher", "nntp", "imap", "wais", "file", "https", "shttp",
    "mms", "prospero", "rtsp", "rtspu", "sftp", "svn", "svn+ssh", "ws", "wss"].map
      String.data).contains scheme

/-- `uses_netloc` of `urllib.parse`. -/
def usesNetloc (scheme : List Char) : Bool :=
  (["", "ftp", "http", "gopher", "nntp", "telnet", "imap", "wais", "file", "mms",
    "https", "shttp", "snews", "prospero", "rtsp", "rtspu", "rsync", "svn",
    "svn+ssh", "sftp", "nfs", "git", "git+ssh", "ws", "wss", "itms-services"].map
      String.data).contains scheme

/-- `uses_params` of `urllib.parse`. -/
def usesParams (scheme : List Char) : Bool :=
  (["", "ftp", "hdl", "prospero", "http", "imap", "https", "shttp", "rtsp",
    "rtspu", "sip", "sips", "mms", "sftp", "tel"].map String.data).contains scheme

/-- Split `u` as `a ++ '/' :: b` around its last slash (`b` slash-free). -/
def splitOnLastSlash (u : List Char) : Option (List Char × List Char) :=
  match splitAtChar '/' u.reverse with
  | some (rb, ra) => some (ra.reverse, rb.reverse)
  | none => none

/-- CPython `_splitparams` (only reached when `;` occurs in the path). -/
def splitparamsL (u : List Char) : List Char × List Char :=
  match splitOnLastSlash u with
  | some (a, b) =>
      match splitAtChar ';' ('/' :: b) with
      | some (p, q) => (a ++ p, q)
      | none => (u, [])
  | none =>
      match splitAtChar ';' u with
      | some (p, q) => (p, q)
      | none => (u, [])

/-- The six components produced by `urlparse`. -/
structure ParsedUrl where
  scheme : List Char
  netloc : List Char
  path : List Char
  params : List Char
  query : List Char
  frag : List Char
deriving Repr, DecidableEq

/-- CPython `urlparse(url, scheme=dscheme, allow_fragments=True)`. -/
def urlparseL (u : List Char) (dscheme : List Char) : ParsedUrl :=
  let s := urlsplitL u dscheme
  if usesParams s.scheme && s.path.contains ';' then
    let pp := splitparamsL s.path
    ⟨s.scheme, s.netloc, pp.1, pp.2, s.query, s.frag⟩
  else
    ⟨s.scheme, s.netloc, s.path, [], s.query, s.frag⟩

/-- CPython `urlunsplit`. -/
def urlunsplitL (scheme netloc u query frag : List Char) : List Char :=
  let u :=
    if netloc ≠ [] || (u ≠ [] && u.take 2 = ['/', '/']) then
      ('/' :: '/' :: netloc) ++ (if u ≠ [] && u.head? ≠ some '/' then '/' :: u else u)
    else u
  let u := if scheme ≠ [] then scheme ++ ':' :: u else u
  let u := if query ≠ [] then u ++ '?' :: query else u
  if frag ≠ [] then u ++ '#' :: frag else u

/-- CPython `urlunparse`. -/
def urlunparseL (scheme netloc path params query frag : List Char) : List Char :=
  urlunsplitL scheme netloc (if params ≠ [] then path ++ ';' :: params else path) query frag

/-- Python `u.split(sep)` with a one-character separator (all occurrences). -/
def splitAllChar (sep : Char) : List Char → List (List Char)
  | [] => [[]]
  | c :: rest =>
      if c == sep then [] :: splitAllChar sep rest
      else
        match splitAllChar sep rest with
        | h :: t => (c :: h) :: t
        | [] => [[c]]

/-- `segments[1:-1] = filter(None, segments[1:-1])`: drop empty segments,
keeping the first and last elements untouched. -/
def keepLastFilterEmpty : List (List Char) → List (List Char)
  | [] => []
  | [a] => [a]
  | a :: rest =>
      if a = [] then keepLastFilterEmpty rest else a :: keepLastFilterEmpty rest

/-- Apply `keepLastFilterEmpty` to all but the head segment. -/
def filterMiddle : List (List Char) → List (List Char)
  | [] => []
  | a :: rest => a :: keepLastFilterEmpty rest

/-- The `.`/`..` resolution loop of `urljoin`. -/
def resolveSegs (acc : List (List Char)) : List (List Char) → List (List Char)
  | [] => acc
  | s :: rest =>
      if s = ['.', '.'] then resolveSegs acc.dropLast rest
      else if s = ['.'] then resolveSegs acc rest
      else resolveSegs (acc ++ [s]) rest

/-- `'/'.join(resolved_path)`. -/
def joinSlash : List (List Char) → List Char
  | [] => []
  | [a] => a
  | a :: rest => a ++ '/' :: joinSlash rest

/-- CPython `urljoin(base, url)` (allow_fragments=True). -/
def urljoinL (base url : List Char) : List Char :=
  if base = [] then url
  else if url = [] then base
  else
    let b := urlparseL base []
    let p := urlparseL url b.scheme
    if p.scheme ≠ b.scheme || !usesRelative p.scheme then url
    else if usesNetloc p.scheme && p.netloc ≠ [] then
      urlunparseL p.scheme p.netloc p.path p.params p.query p.frag
    else
      let netloc := if usesNetloc p.scheme then b.netloc else p.netloc
      if p.path = [] && p.params = [] then
        let query := if p.query = [] then b.query else p.query
        urlunparseL p.scheme netloc b.path b.params query p.frag
      else
        let baseParts0 := splitAllChar '/' b.path
        let baseParts :=
          if baseParts0.getLast? ≠ some [] then baseParts0.dropLast else baseParts0
        let segments :=
          if p.path.head? = some '/' then splitAllChar '/' p.path
          else filterMiddle (baseParts ++ splitAllChar '/' p.path)
        let resolved0 := resolveSegs [] segments
        let resolved :=
          if segments.getLast? = some ['.'] || segments.getLast? = some ['.', '.'] then
            resolved0 ++ [[]]
          else resolved0
        let joined := joinSlash resolved
        urlunparseL p.scheme netloc (if joined = [] then ['/'] else joined)
          p.params p.query p.frag

/-- `Http.build_url` of `services/http.py`: `urljoin(base_url, path)`. -/
def urljoin (base url : String) : String := ⟨urljoinL base.data url.data⟩

/-- `BaseScraper.build_full_url` of `scrapers/base.py`: delegates to
`Http.build_url(self.base_url, path)`. -/
def build_full_url (base path : String) : String := urljoin base path

/-- `config.TARGETS[0]["base_url"]`. -/
def baseUrl : String := "https://outpost-daria-reborn.info"

/-- Does a URL string carry both a scheme and a (non-empty) host?  Defined by
reading the string back through `urlsplit` with no default scheme. -/
def hasSchemeAndHostL (u : List Char) : Bool :=
  (urlsplitL u []).scheme ≠ [] && (urlsplitL u []).netloc ≠ []

/-- String version of `hasSchemeAndHostL`. -/
def hasSchemeAndHost (s : String) : Bool := hasSchemeAndHostL s.data

example : urljoin baseUrl "x.html" = "https://outpost-daria-reborn.info/x.html" := by decide
example : urljoin baseUrl "/a/b.html" = "https://outpost-daria-reborn.info/a/b.html" := by decide
example : urljoin "https://outpost-daria-reborn.info/art/x.html" "../img/y.gif"
    = "https://outpost-daria-reborn.info/img/y.gif" := by decide
example : urljoin baseUrl "mailto:jane@lane.net" = "mailto:jane@lane.net" := by decide
example : urljoin baseUrl "https://e.com/p?q=1#f" = "https://e.com/p?q=1#f" := by decide
example : hasSchemeAndHost "https://outpost-daria-reborn.info/x.html" = true := by decide
example : hasSchemeAndHost "mailto:jane@lane.net" = false := by decide
example : hasSchemeAndHost "x.html" = false := by decide

/-! ## The document tree (BeautifulSoup model)

A parsed page is a tree of element nodes (tag name, attribute list, children)
and text nodes (`NavigableString`s).  `NodeList` is a specialised list so that
all traversals are structural recursions that the kernel can evaluate. -/

mutual
inductive Node where
  | text (s : String)
  | tag (tagName : String) (attrs : List (String × String)) (children : NodeList)
inductive NodeList where
  | nil
  | cons (hd : Node) (tl : NodeList)
end

/-- Convert a `NodeList` to an ordinary list. -/
def NodeList.toList : NodeList → List Node
  | .nil => []
  | .cons c cs => c :: cs.toList

/-- Build a `NodeList` from an ordinary list (for writing documents). -/
def nlist : List Node → NodeList
  | [] => .nil
  | c :: cs => .cons c (nlist cs)

mutual
/-- BeautifulSoup equality (`Tag.__eq__` / `NavigableString.__eq__`): markup
equality — same name, same attributes and same contents, recursively; text
nodes compare by their string; a tag never equals a text node.  Attribute
dicts are modelled as insertion-ordered association lists and compared as
such. -/
def Node.beq : Node → Node → Bool
  | .text s, .text t => s == t
  | .tag n a cs, .tag n' a' cs' => n == n' && a == a' && NodeList.beq cs cs'
  | _, _ => false
/-- Pointwise `Node.beq` on the contents lists. -/
def NodeList.beq : NodeList → NodeList → Bool
  | .nil, .nil => true
  | .cons x xs, .cons y ys => Node.beq x y && NodeList.beq xs ys
  | _, _ => false
end

/-- `element.name`: `none` for a text node (BeautifulSoup returns `None`). -/
def Node.nameOf : Node → Option String
  | .text _ => none
  | .tag n _ _ => some n

/-- `element.get(key)`: attribute lookup, `none` when absent or on a text node. -/
def Node.get : Node → String → Option String
  | .text _, _ => none
  | .tag _ attrs _, k => (attrs.find? (fun p => p.1 == k)).map Prod.snd

/-- `element.get(key, default)`. -/
def Node.getD (n : Node) (k d : String) : String := (n.get k).getD d

mutual
/-- The text fragments of a node, in document order. -/
def Node.texts : Node → List String
  | .text s => [s]
  | .tag _ _ cs => NodeList.texts cs
def NodeList.texts : NodeList → List String
  | .nil => []
  | .cons c cs => Node.texts c ++ NodeList.texts cs
end

/-- `element.get_text()`: concatenation of all text fragments. -/
def getText (n : Node) : String := String.join (Node.texts n)

/-- `element.get_text(strip=True)`: each fragment stripped, then concatenated. -/
def getTextStrip (n : Node) : String := String.join ((Node.texts n).map pyStrip)

/-- `BaseScraper.extract_text(element)`: `element.get_text()` then `.strip()`. -/
def extract_text (n : Node) : String := pyStrip (getText n)

/-- A descendant node located in its document context: the node itself, its
ancestor chain (immediate parent first), and its later siblings in order. -/
structure Spot where
  node : Node
  ancestors : List Node
  following : List Node

mutual
/-- All proper descendants of a node, in document (preorder) order, each with
its ancestor chain and later siblings.  `anc` is the ancestor chain of the
node itself. -/
def nodeSpots : List Node → Node → List Spot
  | _, .text _ => []
  | anc, .tag n a cs => nlSpots (Node.tag n a cs :: anc) cs
def nlSpots : List Node → NodeList → List Spot
  | _, .nil => []
  | anc, .cons c cs => ⟨c, anc, cs.toList⟩ :: (nodeSpots anc c ++ nlSpots anc cs)
end

/-- The descendants of a document root, in document order. -/
def spots (soup : Node) : List Spot := nodeSpots [] soup

/-- `soup.find_all('a')`: all anchor elements in document order. -/
def allLinks (soup : Node) : List Node :=
  (spots soup).filterMap (fun s => if s.node.nameOf == some "a" then some s.node else none)

/-- `soup.find_all('p')`: all paragraph elements in document order. -/
def allParagraphs (soup : Node) : List Node :=
  (spots soup).filterMap (fun s => if s.node.nameOf == some "p" then some s.node else none)

/-- All `img` descendants of a node (ancestors included for `find_parent`),
where `anc` is the ancestor chain of `n` itself. -/
def imgSpotsUnder (anc : List Node) (n : Node) : List Spot :=
  (nodeSpots anc n).filter (fun s => s.node.nameOf == some "img")

/-- `soup.find_all('img')` over the whole document. -/
def imgSpots (soup : Node) : List Spot := imgSpotsUnder [] soup

mutual
/-- First-match preorder search (`soup.find(...)`), returning the match's
`Spot` paired with the `Spot` of its parent (the root's children report the
root's own spot as parent). -/
def findWPList (pred : Node → Bool) (parentSpot : Option Spot) (anc : List Node) :
    NodeList → Option (Spot × Option Spot)
  | .nil => none
  | .cons c cs =>
      if pred c then some (⟨c, anc, cs.toList⟩, parentSpot)
      else
        match findWPNode pred ⟨c, anc, cs.toList⟩ c with
        | some r => some r
        | none => findWPList pred parentSpot anc cs
def findWPNode (pred : Node → Bool) (sc : Spot) : Node → Option (Spot × Option Spot)
  | .text _ => none
  | .tag n a cs => findWPList pred (some sc) (Node.tag n a cs :: sc.ancestors) cs
end

/-- `soup.find(...)` with parent information. -/
def findWP (pred : Node → Bool) (soup : Node) : Option (Spot × Option Spot) :=
  findWPNode pred ⟨soup, [], []⟩ soup

/-! ## `scrapers/base.py` — link lookup -/

/-- The scan loop of `BaseScraper.find_link_by_text`: return the resolved href
of the first link whose text matches (substring when `partialMatch`, else
case-insensitive equality); a matching link without a (truthy) href is
skipped. -/
def findLinkByTextGo (base t : String) (partialMatch : Bool) : List Node → Option String
  | [] => none
  | l :: rest =>
      let ltext := extract_text l
      if (partialMatch && strContains (pyLower ltext) (pyLower t)) ||
         (!partialMatch && pyLower t == pyLower ltext) then
        match l.get "href" with
        | some href =>
            if href ≠ "" then some (build_full_url base href)
            else findLinkByTextGo base t partialMatch rest
        | none => findLinkByTextGo base t partialMatch rest
      else findLinkByTextGo base t partialMatch rest

/-- `BaseScraper.find_link_by_text(soup, text, partial=True)`. -/
def find_link_by_text (base : String) (soup : Node) (t : String) (partialMatch : Bool) :
    Option String :=
  findLinkByTextGo base t partialMatch (allLinks soup)

/-- The scan loop of `BaseScraper.find_link_by_href`. -/
def findLinkByHrefGo (base pat : String) : List Node → Option String
  | [] => none
  | l :: rest =>
      match l.get "href" with
      | some href =>
          if href ≠ "" && strContains href pat then some (build_full_url base href)
          else findLinkByHrefGo base pat rest
      | none => findLinkByHrefGo base pat rest

/-- `BaseScraper.find_link_by_href(soup, href_pattern)`. -/
def find_link_by_href (base : String) (soup : Node) (pat : String) : Option String :=
  findLinkByHrefGo base pat (allLinks soup)

/-! ## `scrapers/character.py` — character-page link resolution -/

/-- The href pattern of `find_character_link`'s primary strategy:
`f"ch_{character_name.lower()}.html"`. -/
def char_href_pattern (nm : String) : String := "ch_" ++ pyLower nm ++ ".html"

/-- Modelled from the spec's words, for comparison with `char_href_pattern`:
the slug obtained by lower-casing the name *and removing spaces*, then
applying the `"ch_" + name + ".html"` convention. -/
def specSlug (nm : String) : String :=
  "ch_" ++ (⟨(pyLower nm).data.filter (fun c => c ≠ ' ')⟩ : String) ++ ".html"

/-- `CharacterScraper.find_character_link`: href-pattern strategy first, text
strategy (with `partial` left at its default `True`) second.  The fetched
listing page is passed as an `Option` (`None` on fetch failure). -/
def find_character_link (base : String) (fetched : Option Node) (nm : String) :
    Option String :=
  match fetched with
  | none => none
  | some soup =>
      match find_link_by_href base soup (char_href_pattern nm) with
      | some l => some l
      | none => find_link_by_text base soup nm true

/-! ## `models/character.py` — the Character record -/

/-- One alter-ego image entry (`_extract_image_data` result / the dict
appended by `CharacterScraper.scrape_alter_egos`). -/
structure ImageData where
  link : String
  width : String
  height : String
deriving Repr, DecidableEq

/-- The `Character` model. -/
structure Character where
  url : String
  full_name : String
  current_age : String
  current_vocation : String
  season_one_age : String
  season_one_vocation : String
  parents : String
  siblings : String
  first_appearance : String
  status_at_end_of_series : String
  character_on_self : String
  description : List String
  alter_egos_images : List ImageData
deriving Repr, DecidableEq

/-- A value of the heterogeneous dict produced by `Character.to_dict`
(a string, a list of strings, or a list of image dicts). -/
inductive JValue where
  | s (v : String)
  | strs (v : List String)
  | imgs (v : List ImageData)
deriving Repr, DecidableEq

/-- `Character.to_dict`. -/
def Character.to_dict (c : Character) : List (String × JValue) :=
  [("url", .s c.url),
   ("full_name", .s c.full_name),
   ("current_age", .s c.current_age),
   ("current_vocation", .s c.current_vocation),
   ("season_one_age", .s c.season_one_age),
   ("season_one_vocation", .s c.season_one_vocation),
   ("parents", .s c.parents),
   ("siblings", .s c.siblings),
   ("first_appearance", .s c.first_appearance),
   ("status_at_end_of_series", .s c.status_at_end_of_series),
   ("character_on_self", .s c.character_on_self),
   ("description", .strs c.description),
   ("alter_egos_images", .imgs c.alter_egos_images)]

/-- `data.get(key, "")` for a string-valued key (a non-string value never
arises from `to_dict` for the keys read this way). -/
def dgetS (d : List (String × JValue)) (k : String) : String :=
  match (d.find? (fun p => p.1 == k)).map Prod.snd with
  | some (.s v) => v
  | _ => ""

/-- `data.get("description", [])`. -/
def dgetStrs (d : List (String × JValue)) (k : String) : List String :=
  match (d.find? (fun p => p.1 == k)).map Prod.snd with
  | some (.strs v) => v
  | _ => []

/-- `data.get("alter_egos_images", [])`. -/
def dgetImgs (d : List (String × JValue)) (k : String) : List ImageData :=
  match (d.find? (fun p => p.1 == k)).map Prod.snd with
  | some (.imgs v) => v
  | _ => []

/-- `Character.from_dict`. -/
def Character.from_dict (d : List (String × JValue)) : Character :=
  ⟨dgetS d "url", dgetS d "full_name", dgetS d "current_age",
   dgetS d "current_vocation", dgetS d "season_one_age",
   dgetS d "season_one_vocation", dgetS d "parents", dgetS d "siblings",
   dgetS d "first_appearance", dgetS d "status_at_end_of_series",
   dgetS d "character_on_self", dgetStrs d "description",
   dgetImgs d "alter_egos_images"⟩

/-! ## `scrapers/alter_ego.py` — section-scoped image collection -/

/-- `AlterEgoScraper._extract_image_data(img)`: `none` when the image has no
(truthy) `src`; otherwise the enclosing link's href (when inside an `<a>` with
a truthy href) or the `src` itself, resolved against the base URL, plus the
verbatim width/height attributes. -/
def extract_image_data (base : String) (img : Spot) : Option ImageData :=
  match img.node.get "src" with
  | none => none
  | some src =>
      if src = "" then none
      else
        let parentHref : Option String :=
          match img.ancestors.find? (fun a => a.nameOf == some "a") with
          | some pl =>
              match pl.get "href" with
              | some h => if h = "" then none else some h
              | none => none
          | none => none
        match parentHref with
        | some href =>
            some ⟨build_full_url base href, img.node.getD "width" "", img.node.getD "height" ""⟩
        | none =>
            some ⟨build_full_url base src, img.node.getD "width" "", img.node.getD "height" ""⟩

/-- `current.find_all('img')` within one visited node, with each image's
image data extracted (`anc` = ancestor chain of `n`). -/
def imagesInNode (base : String) (anc : List Node) (n : Node) : List ImageData :=
  (imgSpotsUnder anc n).filterMap (extract_image_data base)

/-- The stop predicate of the sibling walk: a heading (levels 1–4) with
non-empty text (`current.name in ['h1','h2','h3','h4'] and
self.extract_text(current)`). -/
def stopsWalk (n : Node) : Bool :=
  (n.nameOf == some "h1" || n.nameOf == some "h2" ||
   n.nameOf == some "h3" || n.nameOf == some "h4") && extract_text n ≠ ""

/-- The sibling walk of `_extract_images_from_section` after the start node:
the source breaks on `current != section and current.name in [...] and
self.extract_text(current)`, where `!=` is bs4 Tag inequality, i.e. *markup*
inequality (`Node.beq`), so a later heading sibling that is markup-equal to
the start node does not stop the walk — its images are collected and the walk
goes on. -/
def walkSiblings (base : String) (anc : List Node) (sec : Node) :
    List Node → List ImageData
  | [] => []
  | n :: rest =>
      if !(Node.beq n sec) && stopsWalk n then []
      else imagesInNode base anc n ++ walkSiblings base anc sec rest

/-- `AlterEgoScraper._extract_images_from_section(section)`, applied to the
start node's `Spot` (node + ancestors + later siblings).  On the loop's first
iteration `current` *is* `section` (the same object, so `current != section`
is false by the identity short-circuit of `Tag.__eq__`), hence the start node
is processed unconditionally; every later sibling is a distinct object and is
compared by markup equality in `walkSiblings`. -/
def extract_images_from_section (base : String) (sec : Spot) : List ImageData :=
  imagesInNode base sec.ancestors sec.node ++
    walkSiblings base sec.ancestors sec.node sec.following

/-- The src/alt match of `_extract_images_by_character_name`:
`character_name.lower() in img.get('src', '').lower() or
character_name.lower() in img.get('alt', '').lower()`. -/
def nameMatchSrcAlt (nm : String) (img : Node) : Bool :=
  strContains (pyLower (img.getD "src" "")) (pyLower nm) ||
  strContains (pyLower (img.getD "alt" "")) (pyLower nm)

/-- The parent-text match of `_extract_images_by_character_name`:
`character_name.lower() in self.extract_text(img.parent).lower()`. -/
def nameMatchParent (nm : String) (img : Spot) : Bool :=
  match img.ancestors.head? with
  | some p => strContains (pyLower (extract_text p)) (pyLower nm)
  | none => false

/-- The image loop of `_extract_images_by_character_name`. -/
def extractByNameGo (base nm : String) : List Spot → List ImageData
  | [] => []
  | l :: rest =>
      if nameMatchSrcAlt nm l.node then
        (match extract_image_data base l with
         | some d => [d]
         | none => []) ++ extractByNameGo base nm rest
      else if nameMatchParent nm l then
        (match extract_image_data base l with
         | some d => [d]
         | none => []) ++ extractByNameGo base nm rest
      else extractByNameGo base nm rest

/-- `AlterEgoScraper._extract_images_by_character_name(soup, character_name)`. -/
def extract_images_by_character_name (base : String) (soup : Node) (nm : String) :
    List ImageData :=
  extractByNameGo base nm (imgSpots soup)

/-- `AlterEgoScraper._extract_all_images(soup)`. -/
def extract_all_images (base : String) (soup : Node) : List ImageData :=
  (imgSpots soup).filterMap (extract_image_data base)

/-- `AlterEgoScraper._find_character_section(soup, fragment)`: find by `id`
first, then by `<a name=...>`; when the result is an anchor element, prefer
its parent unless the parent is `body` (the document root plays the part of
the BeautifulSoup `[document]` object). -/
def find_character_section (soup : Node) (frag : String) : Option Spot :=
  let found : Option (Spot × Option Spot) :=
    match findWP (fun n => n.get "id" == some frag) soup with
    | some x => some x
    | none => findWP (fun n => n.nameOf == some "a" && n.get "name" == some frag) soup
  match found with
  | none => none
  | some (s, par) =>
      if s.node.nameOf == some "a" then
        match par with
        | some p => if p.node.nameOf == some "body" then some s else some p
        | none => some s
      else some s

/-- `AlterEgoScraper.scrape_alter_egos(alter_egos_url, fragment)`: the fetch
result is passed as an `Option Node` (`none` = fetch failure). -/
def AlterEgoScraper.scrape_alter_egos (base : String) (fetched : Option Node)
    (fragment : Option String) : List ImageData :=
  match fetched with
  | none => []
  | some soup =>
      match fragment with
      | some frag =>
          match find_character_section soup frag with
          | some sec => extract_images_from_section base sec
          | none => extract_images_by_character_name base soup frag
      | none => extract_all_images base soup

/-! ## `scrapers/character.py` — alter-ego collection on the record -/

/-- `CharacterScraper._get_character_id(full_name)`: empty for an empty name,
else the lower-cased first word.  (A non-empty all-whitespace name raises
`IndexError` in the source; the model returns `""` for that unreachable
input.) -/
def get_character_id (full_name : String) : String :=
  if full_name = "" then ""
  else
    match pySplitWs full_name with
    | [] => ""
    | w :: _ => pyLower w

/-- All `img` descendants of a node, without document context
(`section.find_all('img')` as used in `CharacterScraper.scrape_alter_egos`,
which never consults the images' parents). -/
def imgsOf (n : Node) : List Node := (imgSpotsUnder [] n).map Spot.node

/-- The image filter-and-append loop of `CharacterScraper.scrape_alter_egos`:
keep images whose truthy `src` contains `character_id + "_"`
(case-insensitively), resolving the `src` against the base URL. -/
def charAlterEgoImages (base : String) (character_id : String) (sec : Node) :
    List ImageData :=
  (imgsOf sec).filterMap (fun img =>
    match img.get "src" with
    | some src =>
        if src ≠ "" && strContains (pyLower src) (character_id ++ "_") then
          some ⟨build_full_url base src, img.getD "width" "", img.getD "height" ""⟩
        else none
    | none => none)

/-- `CharacterScraper.scrape_alter_egos(alter_egos_url, fragment, character)`:
on fetch failure the character is returned unchanged; otherwise the section is
located by `id`, then via `<a name=...>` (taking its parent), else the whole
page, and matching images are appended to the record. -/
def CharacterScraper.scrape_alter_egos (base : String) (fetched : Option Node)
    (fragment : Option String) (character : Character) : Character :=
  match fetched with
  | none => character
  | some soup =>
      let character_id := get_character_id character.full_name
      let sectionSpot : Option Spot :=
        match fragment with
        | some frag =>
            match findWP (fun n => n.get "id" == some frag) soup with
            | some (s, _) => some s
            | none =>
                match findWP (fun n => n.nameOf == some "a" && n.get "name" == some frag) soup with
                | some (s, par) =>
                    (match par with
                     | some p => some p
                     | none => some s)
                | none => none
        | none => none
      let sec : Node :=
        match sectionSpot with
        | some s => s.node
        | none => soup
      { character with
          alter_egos_images :=
            character.alter_egos_images ++ charAlterEgoImages base character_id sec }

/-! ## `main.py` — multi-strategy field extraction -/

/-- `character_info_keys` of `main.py`. -/
def character_info_keys : List String :=
  ["Full Name:", "Current Age:", "Current Vocation:",
   "Season One Age:", "Season One Vocation:", "Parents:",
   "Siblings:", "First Appearance:", "Status at end of series:",
   "Daria on herself:"]

/-- `key.replace(":", "").lower().replace(" ", "_")`. -/
def cleanKey (k : String) : String :=
  ⟨((k.data.filter (fun c => c ≠ ':')).map pyLowerChar).map
      (fun c => if c = ' ' then '_' else c)⟩

/-- The mutable `daria_data` field mapping, as an association list
(Python dict with string keys, insertion-ordered). -/
abbrev Record := List (String × String)

/-- Dict read with `""` for a missing key. -/
def getField (r : Record) (k : String) : String :=
  ((List.find? (fun p => p.1 == k) r).map Prod.snd).getD ""

/-- Dict assignment: update the existing entry, or append a new one. -/
def setField (r : Record) (k v : String) : Record :=
  if List.any r (fun p => p.1 == k) then
    List.map (fun p => if p.1 == k then (p.1, v) else p) r
  else r ++ [(k, v)]

/-- The initialisation loop: every clean key mapped to `""`. -/
def initRecord : Record := character_info_keys.map (fun k => (cleanKey k, ""))

/-- What one bold element contributes for one key under strategy 1: the value
assigned when the key occurs (case-insensitively) in the bold text and
(case-sensitively) in the parent's text. -/
def strat1Hit (bp : Node × Option Node) (k : String) : Option String :=
  if strContains (pyLower (getTextStrip bp.1)) (pyLower k) then
    match bp.2 with
    | some parent =>
        let ptext := getTextStrip parent
        if strContains ptext k then some (pyStrip (afterFirst ptext k)) else none
    | none => none
  else none

/-- One key of the inner key loop of strategy 1. -/
def strat1KeyStep (bp : Node × Option Node) (r : Record) (k : String) : Record :=
  match strat1Hit bp k with
  | some v => setField r (cleanKey k) v
  | none => r

/-- The inner key loop of strategy 1 for one bold element. -/
def strat1Step (r : Record) (bp : Node × Option Node) : Record :=
  character_info_keys.foldl (strat1KeyStep bp) r

/-- Strategy 1 (emphasis-anchored) over the list of bold elements paired with
their parents. -/
def strategy1 (bolds : List (Node × Option Node)) (r : Record) : Record :=
  bolds.foldl strat1Step r

/-- `soup.find_all(['strong', 'b'])`, each element with its parent. -/
def boldsWithParent (soup : Node) : List (Node × Option Node) :=
  (spots soup).filterMap (fun s =>
    if s.node.nameOf == some "strong" || s.node.nameOf == some "b" then
      some (s.node, s.ancestors.head?)
    else none)

/-- Strategy 1 as run on a page. -/
def runStrategy1 (soup : Node) (r : Record) : Record :=
  strategy1 (boldsWithParent soup) r

/-- `soup.find_all(text=re.compile(re.escape(key), re.IGNORECASE))`: the text
nodes containing the key case-insensitively, each with its parent. -/
def textNodesMatching (soup : Node) (k : String) : List (String × Option Node) :=
  (spots soup).filterMap (fun s =>
    match s.node with
    | .text t =>
        if strContains (pyLower t) (pyLower k) then some (t, s.ancestors.head?)
        else none
    | .tag _ _ _ => none)

/-- The element scan of strategy 2 for one key: assign from the first text
node whose parent's text contains the key case-sensitively, then break. -/
def strat2Find (k : String) : List (String × Option Node) → Option String
  | [] => none
  | (_, parentOpt) :: rest =>
      match parentOpt with
      | some parent =>
          let ptext := getTextStrip parent
          if strContains ptext k then some (pyStrip (afterFirst ptext k))
          else strat2Find k rest
      | none => strat2Find k rest

/-- One key of strategy 2: only when the field is still empty, scan the
matching text nodes. -/
def strat2Step (soup : Node) (r : Record) (k : String) : Record :=
  if getField r (cleanKey k) = "" then
    match strat2Find k (textNodesMatching soup k) with
    | some v => setField r (cleanKey k) v
    | none => r
  else r

/-- Strategy 2 (regex-text fallback). -/
def strategy2 (soup : Node) (r : Record) : Record :=
  character_info_keys.foldl (strat2Step soup) r

/-- One key of the inner key loop of strategy 3 for one paragraph text. -/
def strat3KeyStep (ptext : String) (r : Record) (k : String) : Record :=
  if strContains ptext k && getField r (cleanKey k) = "" then
    setField r (cleanKey k) (pyStrip (afterFirst ptext k))
  else r

/-- The inner key loop of strategy 3 for one paragraph text. -/
def strat3Step (r : Record) (ptext : String) : Record :=
  character_info_keys.foldl (strat3KeyStep ptext) r

/-- The stripped texts of all paragraphs, in document order. -/
def paragraphTexts (soup : Node) : List String :=
  (allParagraphs soup).map getTextStrip

/-- Strategy 3 (paragraph fallback). -/
def strategy3 (soup : Node) (r : Record) : Record :=
  (paragraphTexts soup).foldl strat3Step r

/-- The full three-strategy field extraction of
`scrape_daria_character_with_alter_egos`, starting from a record `r`
(the source starts from `initRecord`). -/
def runStrategies (soup : Node) (r : Record) : Record :=
  strategy3 soup (strategy2 soup (runStrategy1 soup r))

/-- The field extraction exactly as the source performs it. -/
def extract_fields (soup : Node) : Record := runStrategies soup initRecord

/-- One paragraph of the description loop of `main.py`: append when the
stripped text is non-empty, longer than 50 characters and contains no known
key. -/
def descStep (acc : List String) (t : String) : List String :=
  if t ≠ "" && t.length > 50 then
    if !(character_info_keys.any (fun k => strContains t k)) then acc ++ [t]
    else acc
  else acc

/-- The description loop of `main.py`. -/
def extract_description (soup : Node) : List String :=
  (paragraphTexts soup).foldl descStep []

/-! ## Helper lemmas -/

/-- Pointwise-equal functions give equal `filterMap`s. -/
theorem filterMap_congr_fun {α β : Type} (f g : α → Option β) (l : List α)
    (h : ∀ x ∈ l, f x = g x) : l.filterMap f = l.filterMap g := by
  induction l with
  | nil => rfl
  | cons a l ih =>
      simp only [List.filterMap_cons, h a (List.mem_cons_self a l)]
      rw [ih (fun x hx => h x (List.mem_cons_of_mem a hx))]

/-- A string longer than 50 characters is not empty. -/
theorem ne_empty_of_long (t : String) (h : 50 < t.length) : t ≠ "" := by
  intro he
  subst he
  exact absurd h (by decide)

/-! ## Claims -/

/-- Claim C9: serialisation round-trip — for every `Character` value `c`,
`Character.from_dict (Character.to_dict c)` restores the url, all ten labeled
string fields, the description list and the alter-egos image list of `c`. -/
theorem C9_roundtrip (c : Character) : Character.from_dict (Character.to_dict c) = c := by
  cases c
  rfl

/-- Claim C8: when the alter-egos page fetch fails (`none` fetch result),
`AlterEgoScraper.scrape_alter_egos` returns the empty list and
`CharacterScraper.scrape_alter_egos` returns the character unchanged — the
image-collection step degrades without touching the record. -/
theorem C8_fetch_failure_graceful (base : String) (fragment : Option String)
    (c : Character) :
    AlterEgoScraper.scrape_alter_egos base none fragment = [] ∧
    CharacterScraper.scrape_alter_egos base none fragment c = c := by
  exact ⟨rfl, rfl⟩

/-- The description fold appends, onto any accumulator, exactly the long
unlabeled paragraph texts in order. -/
theorem descFoldEq (ts acc : List String) :
    List.foldl descStep acc ts
      = acc ++ ts.filter
          (fun t => t.length > 50 &&
            !(character_info_keys.any (fun k => strContains t k))) := by
  induction ts generalizing acc with
  | nil => simp
  | cons t ts ih =>
      rw [List.foldl_cons, List.filter_cons]
      have hstep : descStep acc t =
          if (t.length > 50 &&
              !(character_info_keys.any (fun k => strContains t k))) = true then
            acc ++ [t]
          else acc := by
        unfold descStep
        by_cases h50 : 50 < t.length
        · have hne : t ≠ "" := ne_empty_of_long t h50
          by_cases hk : (character_info_keys.any (fun k => strContains t k)) = true
          · simp [h50, hne, hk]
          · simp only [Bool.not_eq_true] at hk
            simp [h50, hne, hk]
        · simp [h50]
      rw [hstep, ih]
      by_cases hc : (t.length > 50 &&
          !(character_info_keys.any (fun k => strContains t k))) = true
      · simp [hc]
      · simp [hc]

/-- Claim C7: description extraction appends, in document order, exactly the
paragraphs whose stripped text is strictly longer than 50 characters and
contains none of the known field labels; no deduplication is performed (the
result is a plain filter of the paragraph-text sequence). -/
theorem C7_description_filter (soup : Node) :
    extract_description soup =
      (paragraphTexts soup).filter
        (fun t => t.length > 50 &&
          !(character_info_keys.any (fun k => strContains t k))) := by
  have h := descFoldEq (paragraphTexts soup) []
  simpa [extract_description] using h

/-- Claim C10: with an empty `full_name`, `_get_character_id` returns `""` and
the image filter of `CharacterScraper.scrape_alter_egos` (fragment absent, so
the whole page is scanned) degenerates to `"_" in src.lower()`: the record
collects every image whose src contains an underscore. -/
theorem C10_empty_name_underscore (base : String) (soup : Node) (c : Character)
    (h : c.full_name = "") :
    get_character_id "" = "" ∧
    CharacterScraper.scrape_alter_egos base (some soup) none c =
      { c with
          alter_egos_images := c.alter_egos_images ++
            (imgsOf soup).filterMap (fun img =>
              match img.get "src" with
              | some src =>
                  if strContains (pyLower src) "_" then
                    some ⟨build_full_url base src, img.getD "width" "", img.getD "height" ""⟩
                  else none
              | none => none) } := by
  refine ⟨rfl, ?_⟩
  show { c with
           alter_egos_images := c.alter_egos_images ++
             charAlterEgoImages base (get_character_id c.full_name) soup } = _
  rw [h]
  have hpat : (get_character_id "" ++ "_" : String) = "_" := rfl
  have himg : charAlterEgoImages base (get_character_id "") soup =
      (imgsOf soup).filterMap (fun img =>
        match img.get "src" with
        | some src =>
            if strContains (pyLower src) "_" then
              some ⟨build_full_url base src, img.getD "width" "", img.getD "height" ""⟩
            else none
        | none => none) := by
    unfold charAlterEgoImages
    rw [hpat]
    apply filterMap_congr_fun
    intro img _
    match hsrc : img.get "src" with
    | none => rfl
    | some src =>
        by_cases hs : src = ""
        · subst hs
          simp [strContains, containsL, pyLower]
        · simp [hs]
  rw [himg]

/-- The text-match scan equals: first link in document order whose text
contains the target as a (case-insensitive) substring and which carries a
non-empty href, resolved. -/
theorem findLinkByTextGo_eq (base t : String) (ls : List Node) :
    findLinkByTextGo base t true ls =
      (ls.filterMap (fun l =>
        if strContains (pyLower (extract_text l)) (pyLower t) then
          match l.get "href" with
          | some href => if href ≠ "" then some (build_full_url base href) else none
          | none => none
        else none)).head? := by
  induction ls with
  | nil => rfl
  | cons l rest ih =>
      rw [List.filterMap_cons]
      by_cases hm : strContains (pyLower (extract_text l)) (pyLower t) = true
      · match hh : l.get "href" with
        | none => simpa [findLinkByTextGo, hm, hh] using ih
        | some href =>
            by_cases he : href = ""
            · subst he
              simpa [findLinkByTextGo, hm, hh] using ih
            · simp [findLinkByTextGo, hm, hh, he]
      · simp only [Bool.not_eq_true] at hm
        simpa [findLinkByTextGo, hm] using ih

/-- The href-pattern scan equals: first link in document order whose href
contains the (non-empty) pattern, resolved. -/
theorem findLinkByHrefGo_eq (base pat : String) (hp : pat.data ≠ []) (ls : List Node) :
    findLinkByHrefGo base pat ls =
      (ls.filterMap (fun l =>
        match l.get "href" with
        | some href =>
            if strContains href pat then some (build_full_url base href) else none
        | none => none)).head? := by
  induction ls with
  | nil => rfl
  | cons l rest ih =>
      rw [List.filterMap_cons]
      match hh : l.get "href" with
      | none => simpa [findLinkByHrefGo, hh] using ih
      | some href =>
          by_cases he : href = ""
          · subst he
            have hc : strContains "" pat = false := by
              unfold strContains containsL
              cases hd : pat.data with
              | nil => exact absurd hd hp
              | cons c cs => rfl
            simpa [findLinkByHrefGo, hh, hc] using ih
          · by_cases hc : strContains href pat = true
            · simp [findLinkByHrefGo, hh, he, hc]
            · simp only [Bool.not_eq_true] at hc
              simpa [findLinkByHrefGo, hh, he, hc] using ih

/-- The character-page href pattern is never the empty string. -/
theorem char_href_pattern_ne_empty (nm : String) : (char_href_pattern nm).data ≠ [] := by
  unfold char_href_pattern
  intro h
  rw [String.data_append, String.data_append] at h
  exact absurd (congrArg List.length h) (by simp)

/-- Claim C3 (amended): the text strategy of `find_character_link` — called
with `find_link_by_text`'s default `partial=True` — matches a link as soon as
the target name occurs case-insensitively as a *substring* of the link's
visible text, and returns the resolved href of the first such link in
document order that carries a non-empty href. -/
theorem C3_amended_text_link (base : String) (soup : Node) (t : String) :
    find_link_by_text base soup t true =
      ((allLinks soup).filterMap (fun l =>
        if strContains (pyLower (extract_text l)) (pyLower t) then
          match l.get "href" with
          | some href => if href ≠ "" then some (build_full_url base href) else none
          | none => none
        else none)).head? := by
  exact findLinkByTextGo_eq base t (allLinks soup)

/-- The C3 counterexample page: one link whose text merely *contains* the
target name (`<a href="x.html">Daria Morgendorffer</a>`). -/
def cexPageC3 : Node :=
  .tag "[document]" []
    (nlist [.tag "a" [("href", "x.html")] (nlist [.text "Daria Morgendorffer"])])

/-- Claim C3 counterexample: on `cexPageC3` the text of the only link is not
equal (case-insensitively) to the target name, yet `find_character_link`
resolves it — the text fallback is a substring match, not an exact match. -/
theorem C3_counterexample :
    find_character_link baseUrl (some cexPageC3) "Daria"
        = some "https://outpost-daria-reborn.info/x.html" ∧
      pyLower (extract_text (.tag "a" [("href", "x.html")]
          (nlist [.text "Daria Morgendorffer"]))) ≠ pyLower "Daria" := by
  exact ⟨by decide, by decide⟩

/-- Claim C4 (amended): strategy A of `find_character_link` matches a link if
and only if its href contains the slug `"ch_" + name.lower() + ".html"` — the
name is lower-cased but spaces are *kept* — and returns the first matching
link's resolved href. -/
theorem C4_amended_href_slug (base : String) (soup : Node) (nm : String) :
    char_href_pattern nm = "ch_" ++ pyLower nm ++ ".html" ∧
    find_link_by_href base soup (char_href_pattern nm) =
      ((allLinks soup).filterMap (fun l =>
        match l.get "href" with
        | some href =>
            if strContains href (char_href_pattern nm) then
              some (build_full_url base href)
            else none
        | none => none)).head? := by
  exact ⟨rfl,
    findLinkByHrefGo_eq base (char_href_pattern nm) (char_href_pattern_ne_empty nm)
      (allLinks soup)⟩

/-- The C4 counterexample page: one link whose href is the space-stripped slug
`ch_janelane.html`. -/
def cexPageC4 : Node :=
  .tag "[document]" []
    (nlist [.tag "a" [("href", "ch_janelane.html")] (nlist [.text "JL"])])

/-- Claim C4 counterexample: for the two-word name `"Jane Lane"` the code's
pattern keeps the space, so it differs from the space-stripped slug of the
claim, and an href containing the claimed slug is not matched at all. -/
theorem C4_counterexample :
    char_href_pattern "Jane Lane" = "ch_jane lane.html" ∧
      specSlug "Jane Lane" = "ch_janelane.html" ∧
      char_href_pattern "Jane Lane" ≠ specSlug "Jane Lane" ∧
      strContains "ch_janelane.html" (specSlug "Jane Lane") = true ∧
      find_link_by_href baseUrl cexPageC4 (char_href_pattern "Jane Lane") = none := by
  exact ⟨by decide, by decide, by decide, by decide, by decide⟩

/-- Claim C5 (amended): the fallback-by-name collector returns, in document
order, exactly those images that match the character key (case-insensitive
containment in src, alt, or the parent's text) *and* carry a non-empty `src`
attribute (an image matching only by alt or parent text but without a src is
dropped by `_extract_image_data`). -/
theorem C5_amended_fallback_filter (base : String) (soup : Node) (nm : String) :
    extract_images_by_character_name base soup nm =
      (imgSpots soup).filterMap (fun l =>
        if nameMatchSrcAlt nm l.node || nameMatchParent nm l then
          extract_image_data base l
        else none) := by
  unfold extract_images_by_character_name
  generalize imgSpots soup = ls
  induction ls with
  | nil => rfl
  | cons l rest ih =>
      rw [List.filterMap_cons]
      by_cases hsa : nameMatchSrcAlt nm l.node = true
      · match hd : extract_image_data base l with
        | none => simpa [extractByNameGo, hsa, hd] using ih
        | some d => simp [extractByNameGo, hsa, hd, ih]
      · simp only [Bool.not_eq_true] at hsa
        by_cases hpm : nameMatchParent nm l = true
        · match hd : extract_image_data base l with
          | none => simpa [extractByNameGo, hsa, hpm, hd] using ih
          | some d => simp [extractByNameGo, hsa, hpm, hd, ih]
        · simp only [Bool.not_eq_true] at hpm
          simpa [extractByNameGo, hsa, hpm] using ih

/-- The C5 counterexample page: one image matching by src, and one matching
only by alt but with no src attribute. -/
def cexPageC5 : Node :=
  .tag "[document]" []
    (nlist [.tag "p" []
      (nlist [.tag "img" [("src", "daria_1.jpg")] .nil,
              .tag "img" [("alt", "daria")] .nil])])

/-- Claim C5 counterexample: on `cexPageC5` two images match the key
(`J = 2` — one by src, one by alt), but the collector returns only one entry:
the alt-matching image has no src and is dropped. -/
theorem C5_counterexample :
    nameMatchSrcAlt "daria" (.tag "img" [("alt", "daria")] .nil) = true ∧
      extract_images_by_character_name baseUrl cexPageC5 "daria"
        = [⟨"https://outpost-daria-reborn.info/daria_1.jpg", "", ""⟩] ∧
      (extract_images_by_character_name baseUrl cexPageC5 "daria").length ≠ 2 := by
  exact ⟨by decide, by decide, by decide⟩

/-- `splitAtChar` on a string starting with `https:` splits at that colon. -/
theorem splitAtChar_colon_https (rest : List Char) :
    splitAtChar ':' ('h' :: 't' :: 't' :: 'p' :: 's' :: ':' :: rest)
      = some ("https".data, rest) := rfl

/-- `splitSchemeL` on a string starting with `https:` yields the scheme. -/
theorem splitSchemeL_https (rest : List Char) :
    splitSchemeL ('h' :: 't' :: 't' :: 'p' :: 's' :: ':' :: rest)
      = some ("https".data, rest) := rfl

/-- Every character of a parsed netloc is a non-delimiter. -/
theorem splitNetlocL_no_end (u : List Char) :
    ∀ c ∈ (splitNetlocL u).1, isNetlocEnd c = false := by
  unfold splitNetlocL
  split
  · intro c hc
    have := List.mem_takeWhile_imp hc
    simpa using this
  · intro c hc
    simp at hc

/-- With no scheme of its own, `urlsplit` adopts the default scheme. -/
theorem urlsplitL_scheme_none (u ds : List Char) (h : splitSchemeL u = none) :
    (urlsplitL u ds).scheme = ds := by
  simp [urlsplitL, h]

/-- The netloc produced by `urlsplit` never contains `/`, `?` or `#`. -/
theorem urlsplitL_netloc_no_end (u ds : List Char) :
    ∀ c ∈ (urlsplitL u ds).netloc, isNetlocEnd c = false := by
  have : (urlsplitL u ds).netloc =
      (splitNetlocL (match splitSchemeL u with
        | some p => p
        | none => (ds, u)).2).1 := rfl
  rw [this]
  exact splitNetlocL_no_end _

/-- `urlparse` preserves the scheme of `urlsplit`. -/
theorem urlparseL_scheme (u ds : List Char) :
    (urlparseL u ds).scheme = (urlsplitL u ds).scheme := by
  simp only [urlparseL]
  split <;> rfl

/-- `urlparse` preserves the netloc of `urlsplit`. -/
theorem urlparseL_netloc (u ds : List Char) :
    (urlparseL u ds).netloc = (urlsplitL u ds).netloc := by
  simp only [urlparseL]
  split <;> rfl

/-- Reading back a `https://<netloc>...` string sees the scheme and a
non-empty host. -/
theorem hasHost_https (c : Char) (Y : List Char) (hc : isNetlocEnd c = false) :
    hasSchemeAndHostL
      ('h' :: 't' :: 't' :: 'p' :: 's' :: ':' :: '/' :: '/' :: c :: Y) = true := by
  have h1 : (urlsplitL
      ('h' :: 't' :: 't' :: 'p' :: 's' :: ':' :: '/' :: '/' :: c :: Y) []).scheme
      = "https".data := by
    simp [urlsplitL, splitSchemeL_https]
  have h2 : (urlsplitL
      ('h' :: 't' :: 't' :: 'p' :: 's' :: ':' :: '/' :: '/' :: c :: Y) []).netloc
      = c :: (Y.takeWhile (fun x => !isNetlocEnd x)) := by
    simp [urlsplitL, splitSchemeL_https, splitNetlocL, List.takeWhile_cons, hc]
  simp [hasSchemeAndHostL, h1, h2]

/-- `urlunsplit` with scheme `https` and a non-empty, delimiter-free netloc
always produces a URL carrying a scheme and a host. -/
theorem urlunsplitL_has_host (netloc u q f : List Char) (hn : netloc ≠ [])
    (hno : ∀ c ∈ netloc, isNetlocEnd c = false) :
    hasSchemeAndHostL (urlunsplitL "https".data netloc u q f) = true := by
  obtain ⟨c, t, rfl⟩ : ∃ c t, netloc = c :: t := by
    cases netloc with
    | nil => exact absurd rfl hn
    | cons c t => exact ⟨c, t, rfl⟩
  have hc : isNetlocEnd c = false := hno c (List.mem_cons_self c t)
  unfold urlunsplitL
  by_cases hq : q = [] <;> by_cases hf : f = [] <;>
    simp [hq, hf, List.cons_append, List.append_assoc, hasHost_https, hc]

/-- Joining a scheme-less reference onto the site's base URL always lands in
an `urlunsplit` call with scheme `https` and a non-empty, delimiter-free
netloc. -/
theorem urljoinL_schemeless (url : List Char) (h : splitSchemeL url = none)
    (hne : url ≠ []) :
    ∃ netloc u q f,
      urljoinL baseUrl.data url = urlunsplitL "https".data netloc u q f ∧
      netloc ≠ [] ∧ ∀ c ∈ netloc, isNetlocEnd c = false := by
  have hbs : (urlparseL baseUrl.data []).scheme = "https".data := by decide
  have hps : (urlparseL url "https".data).scheme = "https".data := by
    rw [urlparseL_scheme, urlsplitL_scheme_none url _ h]
  have hpn : ∀ c ∈ (urlparseL url "https".data).netloc, isNetlocEnd c = false := by
    rw [urlparseL_netloc]
    exact urlsplitL_netloc_no_end url _
  unfold urljoinL
  rw [if_neg (by decide : ¬(baseUrl.data = [])), if_neg hne]
  simp only [hbs, hps]
  rw [if_neg (by decide : ¬((("https".data ≠ "https".data : Bool) ||
      !usesRelative "https".data) = true))]
  by_cases hn : (urlparseL url "https".data).netloc = []
  · rw [if_neg (by simp [hn] : ¬((usesNetloc "https".data &&
        ((urlparseL url "https".data).netloc ≠ [] : Bool)) = true))]
    simp only [show usesNetloc "https".data = true from by decide, if_true]
    have hbn : (urlparseL baseUrl.data []).netloc
        = "outpost-daria-reborn.info".data := by decide
    rw [hbn]
    by_cases hpp : ((urlparseL url "https".data).path = [] &&
        ((urlparseL url "https".data).params = [] : Bool)) = true
    · rw [if_pos hpp]
      exact ⟨_, _, _, _, rfl, by decide, by decide⟩
    · rw [if_neg hpp]
      exact ⟨_, _, _, _, rfl, by decide, by decide⟩
  · rw [if_pos (by simp [show usesNetloc "https".data = true from by decide, hn] :
        ((usesNetloc "https".data &&
          ((urlparseL url "https".data).netloc ≠ [] : Bool)) = true))]
    exact ⟨_, _, _, _, rfl, hn, hpn⟩

/-- Claim C6 (amended): every URL the scrapers store is produced by one
`build_full_url` (i.e. `urljoin`) application against the site's base URL,
and whenever the raw href or src carries no scheme of its own (every relative
reference), the stored URL is absolute — it contains a scheme and a non-empty
host.  A reference carrying its own non-http scheme (e.g. `mailto:`) is
passed through `urljoin` unchanged and need not contain a host. -/
theorem C6_amended_absolute_url (path : String) (h : splitSchemeL path.data = none) :
    hasSchemeAndHost (build_full_url baseUrl path) = true := by
  by_cases hne : path.data = []
  · show hasSchemeAndHostL (urljoinL baseUrl.data path.data) = true
    rw [hne]
    decide
  · obtain ⟨netloc, u, q, f, heq, hn, hno⟩ := urljoinL_schemeless path.data h hne
    show hasSchemeAndHostL (urljoinL baseUrl.data path.data) = true
    rw [heq]
    exact urlunsplitL_has_host netloc u q f hn hno

theorem C6_amended_absolute_url_witness :
    splitSchemeL ("art_alter-egos.html" : String).data = none ∧
      hasSchemeAndHost (build_full_url baseUrl "art_alter-egos.html") = true :=
  ⟨by decide, C6_amended_absolute_url "art_alter-egos.html" (by decide)⟩

/-- The C6 counterexample page: an image wrapped in a `mailto:` link. -/
def cexPageC6 : Node :=
  .tag "[document]" []
    (nlist [.tag "a" [("href", "mailto:jane@lane.net")]
      (nlist [.tag "img" [("src", "daria_1.jpg")] .nil])])

/-- Claim C6 counterexample: the image collector stores the enclosing link's
`mailto:` href unchanged — a URL with no host — so not every stored URL is
absolute in the scheme-and-host sense. -/
theorem C6_counterexample :
    AlterEgoScraper.scrape_alter_egos baseUrl (some cexPageC6) none
        = [⟨"mailto:jane@lane.net", "", ""⟩] ∧
      hasSchemeAndHost "mailto:jane@lane.net" = false := by
  exact ⟨by decide, by decide⟩

/-- The C10 witness page: three images, two of them underscore-named. -/
def wPageC10 : Node :=
  .tag "[document]" []
    (nlist [.tag "img" [("src", "daria_1.jpg")] .nil,
            .tag "img" [("src", "plain.jpg")] .nil,
            .tag "img" [("src", "other_2.jpg")] .nil])

/-- The C10 witness character: a record with no resolved name. -/
def wCharC10 : Character := ⟨"", "", "", "", "", "", "", "", "", "", "", [], []⟩

theorem C10_empty_name_underscore_witness :
    wCharC10.full_name = "" ∧
    (get_character_id "" = "" ∧
      CharacterScraper.scrape_alter_egos baseUrl (some wPageC10) none wCharC10 =
        { wCharC10 with
            alter_egos_images := wCharC10.alter_egos_images ++
              (imgsOf wPageC10).filterMap (fun img =>
                match img.get "src" with
                | some src =>
                    if strContains (pyLower src) "_" then
                      some ⟨build_full_url baseUrl src, img.getD "width" "",
                            img.getD "height" ""⟩
                    else none
                | none => none) }) :=
  ⟨rfl, C10_empty_name_underscore baseUrl wPageC10 wCharC10 rfl⟩

/-! ## Record lemmas for the field-fill analysis (C1) -/

/-- Updating an existing key in place stores the new value. -/
theorem getField_map_set (r : Record) (k v : String)
    (h : List.any r (fun p => p.1 == k) = true) :
    getField (List.map (fun p => if p.1 == k then (p.1, v) else p) r) k = v := by
  induction r with
  | nil => simp at h
  | cons a r ih =>
      rw [List.map_cons]
      by_cases hk : a.1 = k
      · have h1 : (if (a.1 == k) = true then (a.1, v) else a) = (a.1, v) := by simp [hk]
        rw [h1]
        unfold getField
        rw [List.find?_cons_of_pos _ (by simp [hk])]
        rfl
      · have h1 : (if (a.1 == k) = true then (a.1, v) else a) = a := by simp [hk]
        rw [h1]
        unfold getField at ih ⊢
        rw [List.find?_cons_of_neg _ (by simp [hk])]
        exact ih (by simpa [List.any_cons, hk] using h)

/-- Appending a fresh key stores the new value. -/
theorem getField_append_single (r : Record) (k v : String)
    (h : List.any r (fun p => p.1 == k) = false) :
    getField (r ++ [(k, v)]) k = v := by
  induction r with
  | nil =>
      unfold getField
      rw [List.nil_append, List.find?_cons_of_pos _ (by simp)]
      rfl
  | cons a r ih =>
      have hk : ¬ a.1 = k := by
        intro he
        simp [List.any_cons, he] at h
      unfold getField at ih ⊢
      rw [List.cons_append, List.find?_cons_of_neg _ (by simp [hk])]
      exact ih (by simpa [List.any_cons, hk] using h)

/-- In-place update of key `k` leaves every other key's value unchanged. -/
theorem getField_map_set_other (r : Record) (k v k' : String) (h : k' ≠ k) :
    getField (List.map (fun p => if p.1 == k then (p.1, v) else p) r) k'
      = getField r k' := by
  induction r with
  | nil => rfl
  | cons a r ih =>
      rw [List.map_cons]
      unfold getField at ih ⊢
      by_cases hk : a.1 = k
      · have h1 : (if (a.1 == k) = true then (a.1, v) else a) = (a.1, v) := by simp [hk]
        have hk' : ¬ a.1 = k' := by
          rw [hk]
          exact fun he => absurd he.symm h
        rw [h1, List.find?_cons_of_neg _ (by simp [hk']),
            List.find?_cons_of_neg _ (by simp [hk'])]
        exact ih
      · have h1 : (if (a.1 == k) = true then (a.1, v) else a) = a := by simp [hk]
        rw [h1]
        by_cases ha : a.1 = k'
        · rw [List.find?_cons_of_pos _ (by simp [ha]),
              List.find?_cons_of_pos _ (by simp [ha])]
        · rw [List.find?_cons_of_neg _ (by simp [ha]),
              List.find?_cons_of_neg _ (by simp [ha])]
          exact ih

/-- Appending key `k` leaves every other key's value unchanged. -/
theorem getField_append_single_other (r : Record) (k v k' : String) (h : k' ≠ k) :
    getField (r ++ [(k, v)]) k' = getField r k' := by
  induction r with
  | nil =>
      unfold getField
      rw [List.nil_append,
          List.find?_cons_of_neg _ (by simp; exact fun he => absurd he.symm h)]
  | cons a r ih =>
      unfold getField at ih ⊢
      rw [List.cons_append]
      by_cases ha : a.1 = k'
      · rw [List.find?_cons_of_pos _ (by simp [ha]),
            List.find?_cons_of_pos _ (by simp [ha])]
      · rw [List.find?_cons_of_neg _ (by simp [ha]),
            List.find?_cons_of_neg _ (by simp [ha])]
        exact ih

/-- `setField` stores the assigned value. -/
theorem getField_setField_same (r : Record) (k v : String) :
    getField (setField r k v) k = v := by
  unfold setField
  by_cases ha : List.any r (fun p => p.1 == k) = true
  · rw [if_pos ha]
    exact getField_map_set r k v ha
  · rw [if_neg ha]
    exact getField_append_single r k v (Bool.eq_false_iff.mpr ha)

/-- `setField` on key `k` leaves any other key's value unchanged. -/
theorem getField_setField_other (r : Record) (k v k' : String) (h : k' ≠ k) :
    getField (setField r k v) k' = getField r k' := by
  unfold setField
  by_cases ha : List.any r (fun p => p.1 == k) = true
  · rw [if_pos ha]
    exact getField_map_set_other r k v k' h
  · rw [if_neg ha]
    exact getField_append_single_other r k v k' h

/-- A record with all-empty values reads `""` at every key. -/
theorem getField_const_empty (ks : List String) (c : String) :
    getField (ks.map (fun k => (cleanKey k, ""))) c = "" := by
  induction ks with
  | nil => rfl
  | cons k ks ih =>
      unfold getField at ih ⊢
      rw [List.map_cons]
      by_cases h : cleanKey k = c
      · rw [List.find?_cons_of_pos _ (by simp [h])]
        rfl
      · rw [List.find?_cons_of_neg _ (by simp [h])]
        exact ih

/-- Every field of the initial record is empty. -/
theorem getField_initRecord (c : String) : getField initRecord c = "" :=
  getField_const_empty character_info_keys c

/-- A fold over keys that never writes field `c` leaves it unchanged. -/
theorem getField_foldl_keys_untouched (step : Record → String → Record)
    (ks : List String) (r : Record) (c : String)
    (hstep : ∀ r k, k ∈ ks → getField (step r k) c = getField r c) :
    getField (ks.foldl step r) c = getField r c := by
  induction ks generalizing r with
  | nil => rfl
  | cons k ks ih =>
      rw [List.foldl_cons,
          ih _ (fun r' k' hk' => hstep r' k' (List.mem_cons_of_mem _ hk'))]
      exact hstep r k (List.mem_cons_self _ _)

/-- Per-key effect of a key fold: when every step writes only its own clean
key and its effect on that key is `φ k` applied to the old value, the fold's
effect on the clean key of any member `k₀` (clean keys pairwise distinct) is
`φ k₀` of the old value. -/
theorem getField_foldl_keys_field (step : Record → String → Record)
    (φ : String → String → String) (ks : List String) (r : Record) (k₀ : String)
    (h₀ : k₀ ∈ ks) (hnd : (ks.map cleanKey).Nodup)
    (htouch : ∀ r k c, cleanKey k ≠ c → getField (step r k) c = getField r c)
    (heff : ∀ r k, getField (step r k) (cleanKey k) = φ k (getField r (cleanKey k))) :
    getField (ks.foldl step r) (cleanKey k₀) = φ k₀ (getField r (cleanKey k₀)) := by
  induction ks generalizing r with
  | nil => cases h₀
  | cons k ks ih =>
      rw [List.map_cons, List.nodup_cons] at hnd
      rw [List.foldl_cons]
      rcases List.mem_cons.mp h₀ with heq | hmem
      · subst heq
        have hnotin : ∀ k' ∈ ks, cleanKey k' ≠ cleanKey k₀ := by
          intro k' hk' hEq
          exact hnd.1 (hEq ▸ List.mem_map_of_mem cleanKey hk')
        rw [getField_foldl_keys_untouched step ks _ _
            (fun r' k' hk' => htouch r' k' _ (hnotin k' hk'))]
        exact heff r k₀
      · have hkk : cleanKey k ≠ cleanKey k₀ := by
          intro hEq
          exact hnd.1 (hEq ▸ List.mem_map_of_mem cleanKey hmem)
        rw [ih _ hmem hnd.2, htouch r k _ hkk]

/-- The clean keys of `character_info_keys` are pairwise distinct. -/
theorem cleanKeys_nodup : (character_info_keys.map cleanKey).Nodup := by decide

/-- A strategy-1 key step writes only its own clean key. -/
theorem strat1KeyStep_touch (bp : Node × Option Node) (r : Record) (k c : String)
    (hc : cleanKey k ≠ c) :
    getField (strat1KeyStep bp r k) c = getField r c := by
  unfold strat1KeyStep
  cases strat1Hit bp k with
  | none => rfl
  | some v => exact getField_setField_other r (cleanKey k) v c (Ne.symm hc)

/-- Effect of a strategy-1 key step on its own clean key. -/
theorem strat1KeyStep_eff (bp : Node × Option Node) (r : Record) (k : String) :
    getField (strat1KeyStep bp r k) (cleanKey k)
      = (strat1Hit bp k).getD (getField r (cleanKey k)) := by
  unfold strat1KeyStep
  cases strat1Hit bp k with
  | none => rfl
  | some v => simp [getField_setField_same]

/-- A strategy-2 key step writes only its own clean key. -/
theorem strat2Step_touch (soup : Node) (r : Record) (k c : String)
    (hc : cleanKey k ≠ c) :
    getField (strat2Step soup r k) c = getField r c := by
  unfold strat2Step
  by_cases h : getField r (cleanKey k) = ""
  · rw [if_pos h]
    cases strat2Find k (textNodesMatching soup k) with
    | none => rfl
    | some v => exact getField_setField_other r (cleanKey k) v c (Ne.symm hc)
  · rw [if_neg h]

/-- Effect of a strategy-2 key step on its own clean key. -/
theorem strat2Step_eff (soup : Node) (r : Record) (k : String) :
    getField (strat2Step soup r k) (cleanKey k)
      = (if getField r (cleanKey k) = "" then
           (strat2Find k (textNodesMatching soup k)).getD ""
         else getField r (cleanKey k)) := by
  unfold strat2Step
  by_cases h : getField r (cleanKey k) = ""
  · rw [if_pos h, if_pos h]
    cases strat2Find k (textNodesMatching soup k) with
    | none => simpa using h
    | some v => simp [getField_setField_same]
  · rw [if_neg h, if_neg h]

/-- A strategy-3 key step writes only its own clean key. -/
theorem strat3KeyStep_touch (pt : String) (r : Record) (k c : String)
    (hc : cleanKey k ≠ c) :
    getField (strat3KeyStep pt r k) c = getField r c := by
  unfold strat3KeyStep
  by_cases h : (strContains pt k && (getField r (cleanKey k) = "" : Bool)) = true
  · rw [if_pos h]
    exact getField_setField_other r (cleanKey k) _ c (Ne.symm hc)
  · rw [if_neg h]

/-- Effect of a strategy-3 key step on its own clean key. -/
theorem strat3KeyStep_eff (pt : String) (r : Record) (k : String) :
    getField (strat3KeyStep pt r k) (cleanKey k)
      = (if (strContains pt k && (getField r (cleanKey k) = "" : Bool)) = true then
           pyStrip (afterFirst pt k)
         else getField r (cleanKey k)) := by
  unfold strat3KeyStep
  by_cases h : (strContains pt k && (getField r (cleanKey k) = "" : Bool)) = true
  · rw [if_pos h, if_pos h]
    exact getField_setField_same r (cleanKey k) _
  · rw [if_neg h, if_neg h]

/-- The value each bold element would assign for key `k`, in document order. -/
def strat1Hits (bolds : List (Node × Option Node)) (k : String) : List String :=
  bolds.filterMap (fun bp => strat1Hit bp k)

/-- One bold element's inner key loop, on field `cleanKey k₀`. -/
theorem strat1Step_field (r : Record) (bp : Node × Option Node) (k₀ : String)
    (h₀ : k₀ ∈ character_info_keys) :
    getField (strat1Step r bp) (cleanKey k₀)
      = (strat1Hit bp k₀).getD (getField r (cleanKey k₀)) :=
  getField_foldl_keys_field (strat1KeyStep bp)
    (fun k old => (strat1Hit bp k).getD old) character_info_keys r k₀ h₀
    cleanKeys_nodup (strat1KeyStep_touch bp) (strat1KeyStep_eff bp)

/-- Strategy 1 on field `cleanKey k₀`: the *last* matching bold element in
document order determines the value; with no match the field is unchanged. -/
theorem strategy1_field (bolds : List (Node × Option Node)) (r : Record)
    (k₀ : String) (h₀ : k₀ ∈ character_info_keys) :
    getField (strategy1 bolds r) (cleanKey k₀)
      = ((strat1Hits bolds k₀).getLast?).getD (getField r (cleanKey k₀)) := by
  induction bolds generalizing r with
  | nil => rfl
  | cons bp bs ih =>
      show getField (List.foldl strat1Step (strat1Step r bp) bs) (cleanKey k₀) = _
      rw [show List.foldl strat1Step (strat1Step r bp) bs
            = strategy1 bs (strat1Step r bp) from rfl,
          ih (strat1Step r bp), strat1Step_field r bp k₀ h₀]
      show _ = ((strat1Hits (bp :: bs) k₀).getLast?).getD (getField r (cleanKey k₀))
      unfold strat1Hits
      rw [List.filterMap_cons]
      cases hh : strat1Hit bp k₀ with
      | none => simp
      | some v =>
          cases hbs : bs.filterMap (fun bp => strat1Hit bp k₀) with
          | nil => simp [strat1Hits, hbs]
          | cons w ws =>
              obtain ⟨z, hz⟩ : ∃ z, (w :: ws).getLast? = some z :=
                Option.isSome_iff_exists.mp (List.getLast?_isSome.mpr (by simp))
              simp [strat1Hits, hbs, hz]

/-- Strategy 2 on field `cleanKey k₀`: a non-empty field is untouched; an
empty one receives the first matching text node's value (or stays empty). -/
theorem strategy2_field (soup : Node) (r : Record) (k₀ : String)
    (h₀ : k₀ ∈ character_info_keys) :
    getField (strategy2 soup r) (cleanKey k₀)
      = (if getField r (cleanKey k₀) = "" then
           (strat2Find k₀ (textNodesMatching soup k₀)).getD ""
         else getField r (cleanKey k₀)) :=
  getField_foldl_keys_field (strat2Step soup)
    (fun k old =>
      if old = "" then (strat2Find k (textNodesMatching soup k)).getD "" else old)
    character_info_keys r k₀ h₀ cleanKeys_nodup (strat2Step_touch soup)
    (strat2Step_eff soup)

/-- One paragraph's inner key loop, on field `cleanKey k₀`. -/
theorem strat3Step_field (r : Record) (pt : String) (k₀ : String)
    (h₀ : k₀ ∈ character_info_keys) :
    getField (strat3Step r pt) (cleanKey k₀)
      = (if (strContains pt k₀ && (getField r (cleanKey k₀) = "" : Bool)) = true then
           pyStrip (afterFirst pt k₀)
         else getField r (cleanKey k₀)) :=
  getField_foldl_keys_field (strat3KeyStep pt)
    (fun k old =>
      if (strContains pt k && (old = "" : Bool)) = true then pyStrip (afterFirst pt k)
      else old)
    character_info_keys r k₀ h₀ cleanKeys_nodup (strat3KeyStep_touch pt)
    (strat3KeyStep_eff pt)

/-- The candidate values of strategy 3 for key `k`: the split remainder of
each paragraph containing the key, in document order. -/
def strat3Vals (soup : Node) (k : String) : List String :=
  (paragraphTexts soup).filterMap
    (fun pt => if strContains pt k then some (pyStrip (afterFirst pt k)) else none)

/-- Strategy 3 on field `cleanKey k₀`: a non-empty field is untouched; an
empty one receives the first *non-empty* candidate value in document order
(an empty split remainder does not block later paragraphs). -/
theorem strategy3_field (soup : Node) (r : Record) (k₀ : String)
    (h₀ : k₀ ∈ character_info_keys) :
    getField (strategy3 soup r) (cleanKey k₀)
      = (if getField r (cleanKey k₀) = "" then
           ((strat3Vals soup k₀).find? (fun v => v ≠ "")).getD ""
         else getField r (cleanKey k₀)) := by
  unfold strategy3 strat3Vals
  generalize paragraphTexts soup = pts
  induction pts generalizing r with
  | nil =>
      by_cases h : getField r (cleanKey k₀) = ""
      · simp [h]
      · simp [h]
  | cons pt pts ih =>
      rw [List.foldl_cons, List.filterMap_cons, ih (strat3Step r pt),
          strat3Step_field r pt k₀ h₀]
      by_cases hm : strContains pt k₀ = true
      · by_cases ho : getField r (cleanKey k₀) = ""
        · by_cases hv : pyStrip (afterFirst pt k₀) = ""
          · simp [hm, ho, hv]
          · simp [hm, ho, hv]
        · simp [hm, ho]
      · simp only [Bool.not_eq_true] at hm
        simp [hm]

/-- Claim C1 (amended): the regex-text strategy (2) and the paragraph strategy
(3) never overwrite a non-empty field — they fill only fields still empty,
strategy 2 from the first matching text node in document order, strategy 3
from the first paragraph yielding a non-empty remainder.  The
emphasis-anchored strategy (1), however, assigns unconditionally: the *last*
matching bold element in document order determines its value, overwriting any
earlier non-empty value.  Re-running the whole extraction on the
already-resolved record reproduces every field value unchanged. -/
theorem C1_amended_field_fill (soup : Node) (r : Record) (k₀ : String)
    (h₀ : k₀ ∈ character_info_keys) :
    (getField r (cleanKey k₀) ≠ "" →
      getField (strategy2 soup r) (cleanKey k₀) = getField r (cleanKey k₀)) ∧
    (getField r (cleanKey k₀) = "" →
      getField (strategy2 soup r) (cleanKey k₀)
        = (strat2Find k₀ (textNodesMatching soup k₀)).getD "") ∧
    (getField r (cleanKey k₀) ≠ "" →
      getField (strategy3 soup r) (cleanKey k₀) = getField r (cleanKey k₀)) ∧
    (getField r (cleanKey k₀) = "" →
      getField (strategy3 soup r) (cleanKey k₀)
        = ((strat3Vals soup k₀).find? (fun v => v ≠ "")).getD "") ∧
    (getField (runStrategy1 soup r) (cleanKey k₀)
      = ((strat1Hits (boldsWithParent soup) k₀).getLast?).getD
          (getField r (cleanKey k₀))) ∧
    getField (runStrategies soup (extract_fields soup)) (cleanKey k₀)
      = getField (extract_fields soup) (cleanKey k₀) := by
  have hS2 : ∀ r', getField (strategy2 soup r') (cleanKey k₀)
      = (if getField r' (cleanKey k₀) = "" then
           (strat2Find k₀ (textNodesMatching soup k₀)).getD ""
         else getField r' (cleanKey k₀)) :=
    fun r' => strategy2_field soup r' k₀ h₀
  have hS3 : ∀ r', getField (strategy3 soup r') (cleanKey k₀)
      = (if getField r' (cleanKey k₀) = "" then
           ((strat3Vals soup k₀).find? (fun v => v ≠ "")).getD ""
         else getField r' (cleanKey k₀)) :=
    fun r' => strategy3_field soup r' k₀ h₀
  have hS1 : ∀ r', getField (runStrategy1 soup r') (cleanKey k₀)
      = ((strat1Hits (boldsWithParent soup) k₀).getLast?).getD
          (getField r' (cleanKey k₀)) :=
    fun r' => strategy1_field (boldsWithParent soup) r' k₀ h₀
  refine ⟨?_, ?_, ?_, ?_, hS1 r, ?_⟩
  · intro hne
    rw [hS2 r, if_neg hne]
  · intro he
    rw [hS2 r, if_pos he]
  · intro hne
    rw [hS3 r, if_neg hne]
  · intro he
    rw [hS3 r, if_pos he]
  · simp only [runStrategies, extract_fields, hS3, hS2, hS1, getField_initRecord]
    generalize (strat1Hits (boldsWithParent soup) k₀).getLast? = L
    generalize (strat2Find k₀ (textNodesMatching soup k₀)).getD "" = v2
    generalize ((strat3Vals soup k₀).find? (fun v => v ≠ "")).getD "" = v3
    cases L with
    | none =>
        simp only [Option.getD_none]
        by_cases hv2 : v2 = ""
        · by_cases hv3 : v3 = "" <;> simp [hv2, hv3]
        · simp [hv2]
    | some l => simp only [Option.getD_some]

/-- First bold label of the C1 counterexample page. -/
def cexBold1 : Node := .tag "b" [] (nlist [.text "Full Name:"])

/-- First paragraph of the C1 counterexample page: `Full Name: Alice`. -/
def cexPar1 : Node := .tag "p" [] (nlist [cexBold1, .text " Alice"])

/-- Second bold label of the C1 counterexample page. -/
def cexBold2 : Node := .tag "b" [] (nlist [.text "Full Name:"])

/-- Second paragraph of the C1 counterexample page: `Full Name: Beth`. -/
def cexPar2 : Node := .tag "p" [] (nlist [cexBold2, .text " Beth"])

/-- The C1 counterexample page: the same label occurs in two bold elements
with different values. -/
def cexPageC1 : Node := .tag "[document]" [] (nlist [cexPar1, cexPar2])

/-- Claim C1 counterexample: after the first bold element, the field holds the
non-empty value `Alice`; processing the later bold element overwrites it with
`Beth` — the emphasis-anchored strategy is last-match-wins, not
first-match-wins, and a non-empty value is overwritten by a later
extraction step. -/
theorem C1_counterexample :
    getField (strategy1 [(cexBold1, some cexPar1)] initRecord) "full_name" = "Alice" ∧
    getField (strategy1 [(cexBold1, some cexPar1), (cexBold2, some cexPar2)]
        initRecord) "full_name" = "Beth" ∧
    getField (extract_fields cexPageC1) "full_name" = "Beth" ∧
    ("Alice" : String) ≠ "Beth" :=
  ⟨by decide, by decide, by decide, by decide⟩

theorem C1_amended_field_fill_witness :
    ("Full Name:" ∈ character_info_keys) ∧
    ((getField initRecord (cleanKey "Full Name:") ≠ "" →
      getField (strategy2 cexPageC1 initRecord) (cleanKey "Full Name:")
        = getField initRecord (cleanKey "Full Name:")) ∧
    (getField initRecord (cleanKey "Full Name:") = "" →
      getField (strategy2 cexPageC1 initRecord) (cleanKey "Full Name:")
        = (strat2Find "Full Name:" (textNodesMatching cexPageC1 "Full Name:")).getD "") ∧
    (getField initRecord (cleanKey "Full Name:") ≠ "" →
      getField (strategy3 cexPageC1 initRecord) (cleanKey "Full Name:")
        = getField initRecord (cleanKey "Full Name:")) ∧
    (getField initRecord (cleanKey "Full Name:") = "" →
      getField (strategy3 cexPageC1 initRecord) (cleanKey "Full Name:")
        = ((strat3Vals cexPageC1 "Full Name:").find? (fun v => v ≠ "")).getD "") ∧
    (getField (runStrategy1 cexPageC1 initRecord) (cleanKey "Full Name:")
      = ((strat1Hits (boldsWithParent cexPageC1) "Full Name:").getLast?).getD
          (getField initRecord (cleanKey "Full Name:"))) ∧
    getField (runStrategies cexPageC1 (extract_fields cexPageC1))
        (cleanKey "Full Name:")
      = getField (extract_fields cexPageC1) (cleanKey "Full Name:")) :=
  ⟨by decide, C1_amended_field_fill cexPageC1 initRecord "Full Name:" (by decide)⟩
